import Mathlib

/-!
Verification development for the spicy-regs ETL pipeline (src/etl/etl.py).

The pipeline downloads JSON records from a public object store, extracts
flat rows per record kind (dockets / documents / comments), stages them
per agency, merges staging files into per-kind parquet datasets, and
optionally rewrites the comments dataset into Hive year partitions.

This file shallowly embeds the data model and the operations of etl.py:
  - a JSON value type and the Python dict-access primitives used by the
    per-kind extract lambdas (DATA_TYPES, etl.py lines 45-117);
  - download_and_parse and the success filter of process_agency
    (etl.py lines 188-265);
  - list_json_files key filtering (etl.py lines 161-185);
  - the per-run orchestration of main (etl.py lines 495-680), as the
    per-agency results, aggregate totals, merge/save decisions and an
    event trace;
  - the streaming merge's schema-evolution handling on tables
    (merge_staging_files, etl.py lines 268-334) and its file-system
    operation trace (temp write, unlink, rename);
  - the comments partition optimizer (optimize_parquet, etl.py
    lines 377-461).
-/

/-- A parsed JSON value, as produced by Python's json.loads.  Numbers are
modelled as integers; no claim exercises fractional values.  Objects keep
their key order (Python dicts preserve insertion order). -/
inductive JVal where
  | null : JVal
  | bool : Bool → JVal
  | num : Int → JVal
  | str : String → JVal
  | arr : List JVal → JVal
  | obj : List (String × JVal) → JVal

/-- A flat extracted row: the dict literal built by a DATA_TYPES extract
lambda, in its insertion order (first entry is the id field). -/
abbrev Row := List (String × JVal)

/-- Python truthiness of a JSON-decoded value: None, False, 0, empty
string, empty list and empty dict are falsy. -/
def jsonTruthy : JVal → Bool
  | JVal.null => false
  | JVal.bool b => b
  | JVal.num n => n != 0
  | JVal.str s => !s.isEmpty
  | JVal.arr xs => !xs.isEmpty
  | JVal.obj kvs => !kvs.isEmpty

/-- Python's d.get(k, dflt) on a JSON-decoded value: returns the stored
value when the key is present (even when that value is None), the default
when the key is absent, and raises AttributeError when the receiver is
not a dict.  The raise is modelled as Except.error. -/
def pyGet (d : JVal) (k : String) (dflt : JVal) : Except Unit JVal :=
  match d with
  | JVal.obj kvs => Except.ok ((kvs.lookup k).getD dflt)
  | _ => Except.error ()

/-- Python's x[0] on a JSON-decoded value: first element of a non-empty
list, first character of a non-empty string; everything else raises
(IndexError / KeyError / TypeError). -/
def pyIndex0 : JVal → Except Unit JVal
  | JVal.arr (x :: _) => Except.ok x
  | JVal.str s =>
    match s.data with
    | ch :: _ => Except.ok (JVal.str (String.mk [ch]))
    | [] => Except.error ()
  | _ => Except.error ()

/-- The three record kinds of DATA_TYPES (etl.py line 45). -/
inductive DataType where
  | dockets : DataType
  | documents : DataType
  | comments : DataType
deriving DecidableEq

/-- DATA_TYPES[dt]["path_pattern"]. -/
def pathPat : DataType → String
  | DataType.dockets => "/docket/"
  | DataType.documents => "/documents/"
  | DataType.comments => "/comments/"

/-- DATA_TYPES[dt]["schema"] keys, in declared order. -/
def schemaCols : DataType → List String
  | DataType.dockets =>
    ["docket_id", "agency_code", "title", "docket_type", "modify_date",
     "abstract"]
  | DataType.documents =>
    ["document_id", "docket_id", "agency_code", "title", "document_type",
     "posted_date", "modify_date", "comment_start_date", "comment_end_date",
     "file_url"]
  | DataType.comments =>
    ["comment_id", "docket_id", "agency_code", "title", "comment",
     "document_type", "posted_date", "modify_date", "receive_date"]

/-- DATA_TYPES["dockets"]["extract"] (etl.py lines 56-63).  Python
evaluates each dict entry's chain of .get calls in order; all failures
are the same AttributeError, so the shared prefixes d.get("data", ...)
and .get("attributes", ...) are hoisted, which preserves the observable
result (a row, or a raise). -/
def extractDockets (d : JVal) : Except Unit Row := do
  let dataV ← pyGet d "data" (JVal.obj [])
  let attrsV ← pyGet dataV "attributes" (JVal.obj [])
  let idV ← pyGet dataV "id" JVal.null
  let agencyV ← pyGet attrsV "agencyId" JVal.null
  let titleV ← pyGet attrsV "title" JVal.null
  let dktypeV ← pyGet attrsV "docketType" JVal.null
  let modV ← pyGet attrsV "modifyDate" JVal.null
  let absV ← pyGet attrsV "dkAbstract" JVal.null
  pure [("docket_id", idV), ("agency_code", agencyV), ("title", titleV),
        ("docket_type", dktypeV), ("modify_date", modV), ("abstract", absV)]

/-- DATA_TYPES["documents"]["extract"] (etl.py lines 79-90), including the
file_url chain (fileFormats or a one-empty-dict list, then [0], then
.get("fileUrl")). -/
def extractDocuments (d : JVal) : Except Unit Row := do
  let dataV ← pyGet d "data" (JVal.obj [])
  let attrsV ← pyGet dataV "attributes" (JVal.obj [])
  let idV ← pyGet dataV "id" JVal.null
  let docketV ← pyGet attrsV "docketId" JVal.null
  let agencyV ← pyGet attrsV "agencyId" JVal.null
  let titleV ← pyGet attrsV "title" JVal.null
  let doctypeV ← pyGet attrsV "documentType" JVal.null
  let postedV ← pyGet attrsV "postedDate" JVal.null
  let modV ← pyGet attrsV "modifyDate" JVal.null
  let cstartV ← pyGet attrsV "commentStartDate" JVal.null
  let cendV ← pyGet attrsV "commentEndDate" JVal.null
  let ffV ← pyGet attrsV "fileFormats" JVal.null
  let ffListV := if jsonTruthy ffV then ffV else JVal.arr [JVal.obj []]
  let firstV ← pyIndex0 ffListV
  let urlV ← pyGet firstV "fileUrl" JVal.null
  pure [("document_id", idV), ("docket_id", docketV),
        ("agency_code", agencyV), ("title", titleV),
        ("document_type", doctypeV), ("posted_date", postedV),
        ("modify_date", modV), ("comment_start_date", cstartV),
        ("comment_end_date", cendV), ("file_url", urlV)]

/-- DATA_TYPES["comments"]["extract"] (etl.py lines 105-115). -/
def extractComments (d : JVal) : Except Unit Row := do
  let dataV ← pyGet d "data" (JVal.obj [])
  let attrsV ← pyGet dataV "attributes" (JVal.obj [])
  let idV ← pyGet dataV "id" JVal.null
  let docketV ← pyGet attrsV "docketId" JVal.null
  let agencyV ← pyGet attrsV "agencyId" JVal.null
  let titleV ← pyGet attrsV "title" JVal.null
  let commentV ← pyGet attrsV "comment" JVal.null
  let doctypeV ← pyGet attrsV "documentType" JVal.null
  let postedV ← pyGet attrsV "postedDate" JVal.null
  let modV ← pyGet attrsV "modifyDate" JVal.null
  let recvV ← pyGet attrsV "receiveDate" JVal.null
  pure [("comment_id", idV), ("docket_id", docketV),
        ("agency_code", agencyV), ("title", titleV), ("comment", commentV),
        ("document_type", doctypeV), ("posted_date", postedV),
        ("modify_date", modV), ("receive_date", recvV)]

/-- DATA_TYPES[dt]["extract"]. -/
def extractFor : DataType → JVal → Except Unit Row
  | DataType.dockets => extractDockets
  | DataType.documents => extractDocuments
  | DataType.comments => extractComments

/-- download_and_parse (etl.py lines 188-196).  The fetch argument models
S3.get_object + decode + json.loads: none when any of those raise for the
key, some parsed document otherwise.  The try/except catches every
exception, including AttributeError raised inside the extract lambda, and
returns None for it. -/
def downloadAndParse (fetch : String → Option JVal) (dt : DataType)
    (k : String) : Option Row :=
  match fetch k with
  | none => none
  | some d => (extractFor dt d).toOption

/-- The keep test of process_agency's collection loop (etl.py line 244):
the result dict is truthy (a row from extract is always a non-empty dict)
and the value of its first key - the id field - is truthy. -/
def rowKept (row : Row) : Bool :=
  match row with
  | [] => false
  | (_, v) :: _ => jsonTruthy v

/-- Whether a key survives the whole fetch-parse-keep pipeline for one
data type: download and parse succeed and the extracted row's id field is
truthy. -/
def keyOk (fetch : String → Option JVal) (dt : DataType) (k : String) :
    Bool :=
  match downloadAndParse fetch dt k with
  | some row => rowKept row
  | none => false

/-- The parallel download-and-keep loop of process_agency (etl.py lines
236-248), processing keys in list order.  as_completed yields futures in
a nondeterministic order, but the claims only concern the resulting sets,
which are order independent.  Returns (records, successful_keys). -/
def processKeys (fetch : String → Option JVal) (dt : DataType) :
    List String → List Row × List String
  | [] => ([], [])
  | k :: ks =>
    let rest := processKeys fetch dt ks
    match downloadAndParse fetch dt k with
    | some row =>
      if rowKept row then (row :: rest.1, k :: rest.2) else rest
    | none => rest

/-- Substring containment, modelling Python's `in` on strings. -/
def containsSub (s pat : String) : Bool :=
  s.data.tails.any (fun t => pat.data.isPrefixOf t)

/-- The key filter of list_json_files (etl.py line 174). -/
def matchKey (dt : DataType) (k : String) : Bool :=
  containsSub k "/text-" && containsSub k (pathPat dt) &&
    ".json".data.isSuffixOf k.data

/-- list_json_files (etl.py lines 161-185): keep keys that match the
pattern and are not in the manifest.  (The source skips the membership
test when processed_keys is falsy; for an empty set the result is the
same.) -/
def listJsonFiles (allKeys : List String) (dt : DataType)
    (manifest : List String) : List String :=
  allKeys.filter (fun k => matchKey dt k && !(List.elem k manifest))

/-- One (agency, data_type) iteration of process_agency (etl.py lines
216-263): list new keys, download and keep, and write a staging file only
when some records were kept.  Returns (row count written to staging,
successful keys).  Both guard branches (no files / no valid records)
yield (0, []) and leave no staging footprint. -/
def processType (fetch : String → Option JVal) (manifest : List String)
    (allKeys : List String) (dt : DataType) : Nat × List String :=
  let files := listJsonFiles allKeys dt manifest
  if files.isEmpty then (0, [])
  else
    let pr := processKeys fetch dt files
    if pr.1.isEmpty then (0, [])
    else (pr.1.length, pr.2)

/-- process_agency over the three data types (default flags: no
skip-comments / only-comments).  Returns the per-type row counts and the
concatenated successful keys (results, new_keys). -/
def agencyResult (fetch : String → Option JVal) (manifest : List String)
    (allKeys : List String) : (DataType → Nat) × List String :=
  let pd := processType fetch manifest allKeys DataType.dockets
  let pdoc := processType fetch manifest allKeys DataType.documents
  let pcom := processType fetch manifest allKeys DataType.comments
  (fun dt =>
     match dt with
     | DataType.dockets => pd.1
     | DataType.documents => pdoc.1
     | DataType.comments => pcom.1,
   pd.2 ++ pdoc.2 ++ pcom.2)

/-- Observable outcome of one pipeline run of main (etl.py lines
608-661). -/
structure RunResult where
  rowsOf : DataType → Nat
  newKeys : List String
  staged : Bool
  mergeRan : Bool
  saveRan : Bool
  manifestAfter : List String

/-- One run of main over a list of agencies (each given by its object-key
listing) against a fixed source store (fetch) and a starting manifest.
Mirrors etl.py lines 608-661: per-agency results are accumulated, the
merge runs iff any per-type total is non-zero, the manifest is saved iff
any new key was collected, and the durable manifest becomes the old keys
plus the new ones exactly when it is saved. -/
def runOnce (agencies : List (List String))
    (fetch : String → Option JVal) (manifest : List String) : RunResult :=
  let results := agencies.map (agencyResult fetch manifest)
  let tot := fun dt => (results.map (fun r => r.1 dt)).sum
  let allNew := (results.map (fun r => r.2)).flatten
  let anyRows :=
    !((tot DataType.dockets + tot DataType.documents +
       tot DataType.comments) == 0)
  { rowsOf := tot
    newKeys := allNew
    staged := results.any (fun r =>
      !((r.1 DataType.dockets + r.1 DataType.documents +
         r.1 DataType.comments) == 0))
    mergeRan := anyRows
    saveRan := !allNew.isEmpty
    manifestAfter := if allNew.isEmpty then manifest else manifest ++ allNew }

/-- Events of the orchestrator's run, in program order. -/
inductive Ev where
  | agencyDone : Nat → Ev
  | mergeRun : Ev
  | saveRun : Ev
deriving DecidableEq

/-- The temporal trace of main (etl.py lines 626-661): the executor's
with-block joins every agency future, then merge_staging_files runs (iff
any rows were staged), then save_manifest runs (iff any new keys). -/
def mainTrace (agencies : List (List String))
    (fetch : String → Option JVal) (manifest : List String) : List Ev :=
  let r := runOnce agencies fetch manifest
  (List.range agencies.length).map Ev.agencyDone ++
    (if r.mergeRan then [Ev.mergeRun] else []) ++
    (if r.saveRan then [Ev.saveRun] else [])

/-- Outcome of a run in which agency listings may raise
(process_agency_wrapper, etl.py lines 613-633).  A raising agency makes
its future.result() re-raise in the orchestrator loop, which skips merge,
manifest save and upload; the other agencies' submitted work still runs
to completion inside the executor's shutdown. -/
structure RunF where
  stagedResults : List ((DataType → Nat) × List String)
  mergeRan : Bool
  saveRan : Bool
  outcome : Except Unit Unit

/-- Whether an agency's listing raised. -/
def isErrB : Except Unit (List String) → Bool
  | Except.error _ => true
  | Except.ok _ => false

/-- A run of main where each agency's object listing either raises
(Except.error, e.g. a hard S3 listing failure in list_json_files) or
yields its keys.  Staging for the non-failing agencies completes, but any
failure aborts the run before merge and manifest save. -/
def mainRunF (ags : List (Except Unit (List String)))
    (fetch : String → Option JVal) (manifest : List String) : RunF :=
  let okKeys := ags.filterMap (fun a =>
    match a with
    | Except.ok ks => some ks
    | Except.error _ => none)
  let r := runOnce okKeys fetch manifest
  let anyFail := ags.any isErrB
  { stagedResults := okKeys.map (agencyResult fetch manifest)
    mergeRan := !anyFail && r.mergeRan
    saveRan := !anyFail && r.saveRan
    outcome := if anyFail then Except.error () else Except.ok () }

/-! ## Streaming merge: tables and schema evolution -/

/-- An in-memory columnar table: the column-name list and the rows, each
row an association list from column name to a nullable string value. -/
structure PTable where
  cols : List String
  rows : List (List (String × Option String))

/-- table.append_column(col, nulls) (etl.py lines 318-319). -/
def appendNullCol (t : PTable) (c : String) : PTable :=
  { cols := t.cols ++ [c]
    rows := t.rows.map (fun r => r ++ [(c, (none : Option String))]) }

/-- The schema-evolution loop of merge_staging_files (etl.py lines
315-319): append an all-null column for each target column absent from
the file's original column set (computed once, before the loop). -/
def addMissing (target : List String) (t : PTable) : PTable :=
  let existing := t.cols
  target.foldl
    (fun acc c => if existing.contains c then acc else appendNullCol acc c)
    t

/-- table.select(target_columns) (etl.py line 322): keep exactly the
target columns, in target order.  PyArrow raises when a requested column
is missing; after addMissing every target column is present, so the
lookup always finds a value. -/
def selectCols (target : List String) (t : PTable) : PTable :=
  { cols := target
    rows := t.rows.map (fun r =>
      target.map (fun c => (c, (r.lookup c).join))) }

/-- Per-file processing inside the streaming merge loop (etl.py lines
311-324). -/
def processFile (target : List String) (t : PTable) : PTable :=
  selectCols target (addMissing target t)

/-- The streaming merge output for one record kind: the writer's schema
is the target column list, and each input file's processed table is
written in sequence, so the output rows are the concatenation. -/
def mergeTables (target : List String) (ts : List PTable) : PTable :=
  { cols := target
    rows := (ts.map (fun t => (processFile target t).rows)).flatten }

/-- merge_staging_files for one record kind, with the target schema taken
from DATA_TYPES (etl.py line 306). -/
def mergeStagingKind (dt : DataType) (ts : List PTable) : PTable :=
  mergeTables (schemaCols dt) ts

/-! ## Streaming merge: file-system operation trace -/

/-- State of a file: fully written, or an in-progress parquet write (the
ParquetWriter context is open). -/
inductive FVal where
  | done : Nat → FVal
  | inProgress : FVal
deriving DecidableEq

/-- File-system operations performed by merge_staging_files. -/
inductive FsOp where
  | readF : String → FsOp
  | beginW : String → FsOp
  | endW : String → FsOp
  | unlinkF : String → FsOp
  | renameF : String → String → FsOp
  | moveF : String → String → FsOp
deriving DecidableEq

/-- Whether an operation writes, deletes or renames the file at path q
(reads never modify). -/
def touchesQ (op : FsOp) (q : String) : Bool :=
  match op with
  | FsOp.readF _ => false
  | FsOp.beginW p => p == q
  | FsOp.endW p => p == q
  | FsOp.unlinkF p => p == q
  | FsOp.renameF s d => s == q || d == q
  | FsOp.moveF s d => s == q || d == q

/-- Effect of one operation on the file system. -/
def applyOp (fs : String → Option FVal) : FsOp → (String → Option FVal)
  | FsOp.readF _ => fs
  | FsOp.beginW p => fun q => if q == p then some FVal.inProgress else fs q
  | FsOp.endW p => fun q => if q == p then some (FVal.done 0) else fs q
  | FsOp.unlinkF p => fun q => if q == p then none else fs q
  | FsOp.renameF s d =>
    fun q => if q == d then fs s else if q == s then none else fs q
  | FsOp.moveF s d =>
    fun q => if q == d then fs s else if q == s then none else fs q

/-- Effect of a sequence of operations. -/
def applyOps (ops : List FsOp) (fs : String → Option FVal) :
    String → Option FVal :=
  ops.foldl applyOp fs

/-- Name of a record kind, as used in its file names. -/
def dtName : DataType → String
  | DataType.dockets => "dockets"
  | DataType.documents => "documents"
  | DataType.comments => "comments"

/-- output_dir / f"{data_type}.parquet" (etl.py line 276). -/
def outP (dt : DataType) : String := dtName dt ++ ".parquet"

/-- output_dir / f"{data_type}_merged.parquet" (etl.py line 303). -/
def tmpP (dt : DataType) : String := dtName dt ++ "_merged.parquet"

/-- The file-system operations of one merge_staging_files iteration
(etl.py lines 274-332) for kind dt, given the staging file list.  Empty
staging (missing directory or no parquet files) produces no operations;
one staging file with no existing output is moved directly; otherwise the
merged data is streamed to the temp name, then the old output (if any) is
unlinked and the temp file renamed into place. -/
def mergeOpsKind (fs : String → Option FVal) (dt : DataType)
    (staging : List String) : List FsOp :=
  match staging with
  | [] => []
  | s0 :: srest =>
    let ex := (fs (outP dt)).isSome
    let files := (if ex then [outP dt] else []) ++ s0 :: srest
    if files.length == 1 && !ex then
      [FsOp.moveF s0 (outP dt)]
    else
      FsOp.beginW (tmpP dt) ::
        (files.map FsOp.readF ++
          (FsOp.endW (tmpP dt) ::
            ((if ex then [FsOp.unlinkF (outP dt)] else []) ++
              [FsOp.renameF (tmpP dt) (outP dt)])))

/-- merge_staging_files over the three kinds in DATA_TYPES order
(etl.py line 274), threading the file-system state. -/
def mergeAllOps (stg : DataType → List String)
    (fs : String → Option FVal) : List FsOp :=
  let o1 := mergeOpsKind fs DataType.dockets (stg DataType.dockets)
  let fs1 := applyOps o1 fs
  let o2 := mergeOpsKind fs1 DataType.documents (stg DataType.documents)
  let fs2 := applyOps o2 fs1
  let o3 := mergeOpsKind fs2 DataType.comments (stg DataType.comments)
  o1 ++ o2 ++ o3

/-! ## Comments partition optimizer -/

/-- The fields of a merged comments row used by the optimizer: sort keys
and the partitioning date.  All values are nullable strings. -/
structure CRow where
  comment_id : Option String
  docket_id : Option String
  agency_code : Option String
  posted_date : Option String
deriving DecidableEq

/-- Lexicographic strict order on code units, as Python and PyArrow
compare strings. -/
def lexLt : List Char → List Char → Bool
  | [], [] => false
  | [], _ :: _ => true
  | _ :: _, [] => false
  | a :: as, b :: bs =>
    if a.toNat < b.toNat then true
    else if b.toNat < a.toNat then false
    else lexLt as bs

/-- Strict string comparison. -/
def strLt (a b : String) : Bool := lexLt a.data b.data

/-- Non-strict string comparison. -/
def strLe (a b : String) : Bool := strLt a b || a == b

/-- posted_date[:4] - pc.utf8_slice_codeunits(col, 0, 4)
(etl.py line 395). -/
def yearSlice (s : String) : String := String.mk (s.data.take 4)

/-- Numeric value of an ASCII digit string, as Python's int() computes it
on isdigit input. -/
def digitsVal (cs : List Char) : Nat :=
  cs.foldl (fun n c => n * 10 + (c.toNat - 48)) 0

/-- y.isdigit() and 2000 <= int(y) <= 2030 (etl.py line 400). -/
def yearValidB (y : String) : Bool :=
  !y.isEmpty && y.data.all Char.isDigit &&
    (decide (2000 ≤ digitsVal y.data) && decide (digitsVal y.data ≤ 2030))

/-- str(int(y) + 1) (etl.py line 410). -/
def nextYearStr (y : String) : String := toString (digitsVal y.data + 1)

/-- First-occurrence deduplication (pc.unique; only membership and
emptiness of the result matter downstream). -/
def uniqAcc (acc : List String) : List String → List String
  | [] => acc
  | x :: xs =>
    if acc.contains x then uniqAcc acc xs else uniqAcc (acc ++ [x]) xs

/-- Deduplicate a list of strings. -/
def uniqL (xs : List String) : List String := uniqAcc [] xs

/-- Insertion step of the string sort. -/
def insertStr (s : String) : List String → List String
  | [] => [s]
  | x :: xs => if strLe s x then s :: x :: xs else x :: insertStr s xs

/-- sorted(...) on strings (etl.py line 400). -/
def sortStrs : List String → List String
  | [] => []
  | x :: xs => insertStr x (sortStrs xs)

/-- Ordering on nullable strings with nulls placed last, as PyArrow's
sort_by does. -/
def optLt (a b : Option String) : Bool :=
  match a, b with
  | some x, some y => strLt x y
  | some _, none => true
  | none, _ => false

/-- Non-strict version of optLt. -/
def optLe (a b : Option String) : Bool :=
  match a, b with
  | none, some _ => false
  | none, none => true
  | some _, none => true
  | some x, some y => strLe x y

/-- sort_by([(agency_code, asc), (docket_id, asc), (posted_date, asc)])
key order (etl.py lines 418-422). -/
def crowLe (a b : CRow) : Bool :=
  optLt a.agency_code b.agency_code ||
    (a.agency_code == b.agency_code &&
      (optLt a.docket_id b.docket_id ||
        (a.docket_id == b.docket_id && optLe a.posted_date b.posted_date)))

/-- Insertion step of the row sort. -/
def insertCRow (r : CRow) : List CRow → List CRow
  | [] => [r]
  | x :: xs => if crowLe r x then r :: x :: xs else x :: insertCRow r xs

/-- Sort the rows of one year partition. -/
def sortCRows (rows : List CRow) : List CRow :=
  rows.foldr insertCRow []

/-- The year filter '(posted_date >= y) & (posted_date < str(int(y)+1))'
(etl.py lines 411-414); comparing null with a string yields null, which
the filter drops. -/
def inYearRange (y : String) (r : CRow) : Bool :=
  match r.posted_date with
  | some s => strLe y s && strLt s (nextYearStr y)
  | none => false

/-- The catch-all filter '~valid_range | posted_date.is_null()' (etl.py
lines 441-445), with valid_range spanning the first valid year to the
successor of the last. -/
def inOtherPart (lo hi : String) (r : CRow) : Bool :=
  match r.posted_date with
  | some s => !(strLe lo s && strLt s hi)
  | none => true

/-- The comments branch of optimize_parquet (etl.py lines 378-461),
mapping the merged comments rows to the list of written Hive partitions
(partition name, rows in written order).  The source indexes
valid_years[0] unconditionally in its progress report (line 402), which
raises IndexError when no valid year exists; that is the error case.
The year=other partition is only written when other_years is non-empty
and the filtered table has rows (lines 439-459). -/
def optimizeComments (rows : List CRow) :
    Except Unit (List (String × List CRow)) :=
  let uys := uniqL (rows.filterMap (fun r => r.posted_date.map yearSlice))
  let valid := sortStrs (uys.filter yearValidB)
  let others := uys.filter (fun y => !(valid.contains y))
  match valid with
  | [] => Except.error ()
  | v0 :: vrest =>
    let hi := nextYearStr (List.getLastD (v0 :: vrest) v0)
    let yearParts := (v0 :: vrest).map (fun y =>
      (y, sortCRows (rows.filter (inYearRange y))))
    let otherRows := rows.filter (inOtherPart v0 hi)
    let otherPart :=
      if others.isEmpty then []
      else if otherRows.isEmpty then []
      else [("other", otherRows)]
    Except.ok (yearParts ++ otherPart)

/-! ## Navigability conditions for the extract lambdas -/

/-- The attributes value an extract lambda traverses:
d.get("data", {}).get("attributes", {}) when both levels are dicts. -/
def attrsOf (d : JVal) : JVal :=
  match d with
  | JVal.obj kvs =>
    match (kvs.lookup "data").getD (JVal.obj []) with
    | JVal.obj dkvs => (dkvs.lookup "attributes").getD (JVal.obj [])
    | _ => JVal.null
  | _ => JVal.null

/-- The document, its (defaulted) data member and the (defaulted)
attributes member are all dicts - the condition under which every .get
chain in the extract lambdas succeeds. -/
def navBase (d : JVal) : Bool :=
  match d with
  | JVal.obj kvs =>
    match (kvs.lookup "data").getD (JVal.obj []) with
    | JVal.obj dkvs =>
      match (dkvs.lookup "attributes").getD (JVal.obj []) with
      | JVal.obj _ => true
      | _ => false
    | _ => false
  | _ => false

/-- For documents: the fileFormats value is falsy (so the literal
[{}] replaces it) or a non-empty list whose first element is a dict, the
condition under which the file_url chain succeeds. -/
def ffOkB (d : JVal) : Bool :=
  match attrsOf d with
  | JVal.obj akvs =>
    let f := (akvs.lookup "fileFormats").getD JVal.null
    if jsonTruthy f then
      match f with
      | JVal.arr (JVal.obj _ :: _) => true
      | _ => false
    else true
  | _ => false

/-- Specification-side characterization of which row (if any) one key
contributes to the records list: the extracted row when download, parse
and the id-truthiness test all pass. -/
def rowPick (fetch : String → Option JVal) (dt : DataType) (k : String) :
    Option Row :=
  match downloadAndParse fetch dt k with
  | some row => if rowKept row then some row else none
  | none => none

/-! ## Concrete inputs used in witnesses and counterexamples -/

/-- A comments row with a well-formed 2023 posted date. -/
def exRowDated : CRow :=
  { comment_id := some "c1", docket_id := some "D-1",
    agency_code := some "EPA", posted_date := some "2023-05-01" }

/-- A comments row with a null posted date. -/
def exRowNullDate : CRow :=
  { comment_id := some "c2", docket_id := some "D-2",
    agency_code := some "EPA", posted_date := none }

/-- A parsed document that is the empty JSON object: every field of the
extracted row defaults to null, including the id field. -/
def exEmptyObj : JVal := JVal.obj []

/-- A parsed record whose id is present and truthy but whose attributes
value is JSON null. -/
def exAttrsNull : JVal :=
  JVal.obj [("data",
    JVal.obj [("id", JVal.str "A"), ("attributes", JVal.null)])]

/-- A parsed record whose data value is JSON null. -/
def exDataNull : JVal := JVal.obj [("data", JVal.null)]

/-- A well-formed comment record with a truthy id and no attributes. -/
def exGoodComment : JVal :=
  JVal.obj [("data", JVal.obj [("id", JVal.str "C0001")])]

/-- An object key matching the dockets path pattern. -/
def exDocketKey : String := "raw-data/EPA/text-1/docket/a.json"

/-- An object key matching the comments path pattern. -/
def exCommentKey : String := "raw-data/EPA/text-1/comments/a.json"

/-- A fetch function returning the empty object for every key. -/
def exFetchEmpty : String → Option JVal := fun _ => some exEmptyObj

/-- A fetch function returning a good comment record for every key. -/
def exFetchGood : String → Option JVal := fun _ => some exGoodComment

/-- A fetch function that fails on the key "bad" and returns a good
comment record otherwise. -/
def exFetchBad : String → Option JVal :=
  fun k => if k == "bad" then none else some exGoodComment

/-- A staging table with columns x, y only, one row. -/
def exTable : PTable :=
  { cols := ["x", "y"]
    rows := [[("x", some "1"), ("y", (none : Option String))]] }

/-! ## Lemmas about the fetch-parse stage -/

/-- The successful-keys list is exactly the keys passing the full
download-parse-keep test, in input order. -/
theorem processKeys_snd (fetch : String → Option JVal) (dt : DataType) :
    ∀ ks : List String,
      (processKeys fetch dt ks).2 = ks.filter (keyOk fetch dt) := by
  intro ks
  induction ks with
  | nil => rfl
  | cons k ks ih =>
    cases hd : downloadAndParse fetch dt k with
    | none => simp [processKeys, List.filter_cons, keyOk, hd, ih]
    | some row =>
      cases hr : rowKept row <;>
        simp [processKeys, List.filter_cons, keyOk, hd, hr, ih]

/-- The records list is exactly the rows picked from the keys, in input
order. -/
theorem processKeys_fst (fetch : String → Option JVal) (dt : DataType) :
    ∀ ks : List String,
      (processKeys fetch dt ks).1 = ks.filterMap (rowPick fetch dt) := by
  intro ks
  induction ks with
  | nil => rfl
  | cons k ks ih =>
    cases hd : downloadAndParse fetch dt k with
    | none => simp [processKeys, List.filterMap_cons, rowPick, hd, ih]
    | some row =>
      cases hr : rowKept row <;>
        simp [processKeys, List.filterMap_cons, rowPick, hd, hr, ih]

/-- One record is kept per successful key. -/
theorem processKeys_length (fetch : String → Option JVal) (dt : DataType) :
    ∀ ks : List String,
      (processKeys fetch dt ks).1.length = (processKeys fetch dt ks).2.length := by
  intro ks
  induction ks with
  | nil => rfl
  | cons k ks ih =>
    cases hd : downloadAndParse fetch dt k with
    | none => simp [processKeys, hd, ih]
    | some row =>
      cases hr : rowKept row <;> simp [processKeys, hd, hr, ih]

/-- A key that fails the keep test contributes no row. -/
theorem rowPick_none {fetch : String → Option JVal} {dt : DataType}
    {k : String} (h : keyOk fetch dt k = false) :
    rowPick fetch dt k = none := by
  unfold rowPick
  unfold keyOk at h
  cases hd : downloadAndParse fetch dt k with
  | none => rfl
  | some row => simp [hd] at h; simp [h]

/-- A key that passes the keep test contributes its row. -/
theorem rowPick_some {fetch : String → Option JVal} {dt : DataType}
    {k : String} (h : keyOk fetch dt k = true) :
    ∃ row, rowPick fetch dt k = some row := by
  unfold rowPick
  unfold keyOk at h
  cases hd : downloadAndParse fetch dt k with
  | none => simp [hd] at h
  | some row => simp [hd] at h; simp [h]

/-- If every listed key fails the keep test, the (agency, type) step
stages nothing and reports no successful keys. -/
theorem processType_all_bad {fetch : String → Option JVal}
    {manifest allKeys : List String} {dt : DataType}
    (h : ∀ k ∈ listJsonFiles allKeys dt manifest, keyOk fetch dt k = false) :
    processType fetch manifest allKeys dt = (0, []) := by
  unfold processType
  cases hf : (listJsonFiles allKeys dt manifest).isEmpty with
  | true => simp [hf]
  | false =>
    have hrec : (processKeys fetch dt (listJsonFiles allKeys dt manifest)).1 = [] := by
      rw [processKeys_fst]
      rw [List.filterMap_eq_nil_iff]
      intro k hk
      exact rowPick_none (h k hk)
    simp [hf, hrec]

/-- A key reported successful by the (agency, type) step was listed and
passed the keep test. -/
theorem processType_snd_mem {fetch : String → Option JVal}
    {manifest allKeys : List String} {dt : DataType} {k : String}
    (h : k ∈ (processType fetch manifest allKeys dt).2) :
    k ∈ listJsonFiles allKeys dt manifest ∧ keyOk fetch dt k = true := by
  cases hf : (listJsonFiles allKeys dt manifest).isEmpty with
  | true => simp only [processType, hf] at h; simp at h
  | false =>
    simp only [processType, hf, Bool.false_eq_true, if_false] at h
    cases hr : (processKeys fetch dt (listJsonFiles allKeys dt manifest)).1.isEmpty with
    | true => rw [hr] at h; simp at h
    | false =>
      rw [hr] at h
      simp only [Bool.false_eq_true, if_false] at h
      rw [processKeys_snd] at h
      exact List.mem_filter.mp h

/-- A listed key that passes the keep test is reported successful. -/
theorem processType_mem_of {fetch : String → Option JVal}
    {manifest allKeys : List String} {dt : DataType} {k : String}
    (hk : k ∈ listJsonFiles allKeys dt manifest)
    (hok : keyOk fetch dt k = true) :
    k ∈ (processType fetch manifest allKeys dt).2 := by
  unfold processType
  have hfe : (listJsonFiles allKeys dt manifest).isEmpty = false := by
    cases hfe : (listJsonFiles allKeys dt manifest).isEmpty with
    | true => rw [List.isEmpty_iff] at hfe; rw [hfe] at hk; cases hk
    | false => rfl
  obtain ⟨row, hrow⟩ := rowPick_some hok
  have hne : (processKeys fetch dt (listJsonFiles allKeys dt manifest)).1 ≠ [] := by
    rw [processKeys_fst]
    intro hnil
    rw [List.filterMap_eq_nil_iff] at hnil
    rw [hnil k hk] at hrow
    cases hrow
  have hre : (processKeys fetch dt (listJsonFiles allKeys dt manifest)).1.isEmpty = false := by
    cases hx : (processKeys fetch dt (listJsonFiles allKeys dt manifest)).1.isEmpty with
    | true => rw [List.isEmpty_iff] at hx; exact absurd hx hne
    | false => rfl
  simp only [hfe, hre, Bool.false_eq_true, if_false]
  rw [processKeys_snd]
  exact List.mem_filter.mpr ⟨hk, hok⟩

/-- The new keys of an agency are the successful keys of its three
per-type steps. -/
theorem agencyResult_snd_mem {fetch : String → Option JVal}
    {manifest ks : List String} {k : String} :
    k ∈ (agencyResult fetch manifest ks).2 ↔
      k ∈ (processType fetch manifest ks DataType.dockets).2 ∨
      k ∈ (processType fetch manifest ks DataType.documents).2 ∨
      k ∈ (processType fetch manifest ks DataType.comments).2 := by
  have hdef : (agencyResult fetch manifest ks).2 =
      (processType fetch manifest ks DataType.dockets).2 ++
      (processType fetch manifest ks DataType.documents).2 ++
      (processType fetch manifest ks DataType.comments).2 := rfl
  rw [hdef]
  simp [List.mem_append, or_assoc]

/-- Membership in a run's new keys, unfolded to the contributing
agency. -/
theorem runOnce_newKeys_mem {agencies : List (List String)}
    {fetch : String → Option JVal} {manifest : List String} {k : String} :
    k ∈ (runOnce agencies fetch manifest).newKeys ↔
      ∃ ks ∈ agencies, k ∈ (agencyResult fetch manifest ks).2 := by
  have hdef : (runOnce agencies fetch manifest).newKeys =
      ((agencies.map (agencyResult fetch manifest)).map
        (fun r => r.2)).flatten := rfl
  rw [hdef, List.mem_flatten]
  constructor
  · rintro ⟨l, hl, hkl⟩
    rw [List.mem_map] at hl
    obtain ⟨r, hr, hrl⟩ := hl
    rw [List.mem_map] at hr
    obtain ⟨ks, hks, hrk⟩ := hr
    refine ⟨ks, hks, ?_⟩
    rw [← hrk] at hrl
    rw [← hrl] at hkl
    exact hkl
  · rintro ⟨ks, hks, hmem⟩
    exact ⟨(agencyResult fetch manifest ks).2,
      List.mem_map.mpr ⟨agencyResult fetch manifest ks,
        List.mem_map.mpr ⟨ks, hks, rfl⟩, rfl⟩, hmem⟩

/-- A key absent from the post-run durable manifest was neither in the
pre-run manifest nor among the run's new keys. -/
theorem runOnce_manifestAfter_not_mem {agencies : List (List String)}
    {fetch : String → Option JVal} {manifest : List String} {k : String}
    (h : k ∉ (runOnce agencies fetch manifest).manifestAfter) :
    k ∉ manifest ∧ k ∉ (runOnce agencies fetch manifest).newKeys := by
  have hdef : (runOnce agencies fetch manifest).manifestAfter =
      (if (runOnce agencies fetch manifest).newKeys.isEmpty then manifest
       else manifest ++ (runOnce agencies fetch manifest).newKeys) := rfl
  rw [hdef] at h
  by_cases he : (runOnce agencies fetch manifest).newKeys.isEmpty
  · rw [if_pos he] at h
    refine ⟨h, ?_⟩
    rw [List.isEmpty_iff] at he
    rw [he]
    exact List.not_mem_nil k
  · rw [if_neg he] at h
    rw [List.mem_append] at h
    push_neg at h
    exact h

/-- Any key still listed on the run after a run (same store, same
agencies) must have failed the keep test deterministically in the first
run: it was not recorded in the manifest, so it was already listed then,
and had it succeeded it would be among the first run's new keys. -/
theorem secondRun_keyOk_false {agencies : List (List String)}
    {fetch : String → Option JVal} {manifest : List String}
    {ks : List String} (hks : ks ∈ agencies) {dt : DataType} {k : String}
    (hk : k ∈ listJsonFiles ks dt
      (runOnce agencies fetch manifest).manifestAfter) :
    keyOk fetch dt k = false := by
  rw [listJsonFiles, List.mem_filter] at hk
  obtain ⟨hkks, hcond⟩ := hk
  rw [Bool.and_eq_true] at hcond
  obtain ⟨hmatch, hnelem⟩ := hcond
  have hnin : k ∉ (runOnce agencies fetch manifest).manifestAfter := by
    intro hmem
    rw [Bool.not_eq_eq_eq_not, Bool.not_true] at hnelem
    rw [← List.elem_iff] at hmem
    rw [hmem] at hnelem
    cases hnelem
  obtain ⟨hman, hnew⟩ := runOnce_manifestAfter_not_mem hnin
  cases hok : keyOk fetch dt k with
  | false => rfl
  | true =>
    exfalso
    apply hnew
    rw [runOnce_newKeys_mem]
    refine ⟨ks, hks, ?_⟩
    rw [agencyResult_snd_mem]
    have hk1 : k ∈ listJsonFiles ks dt manifest := by
      rw [listJsonFiles, List.mem_filter]
      refine ⟨hkks, ?_⟩
      rw [Bool.and_eq_true]
      refine ⟨hmatch, ?_⟩
      rw [Bool.not_eq_eq_eq_not, Bool.not_true]
      cases helem : List.elem k manifest with
      | false => rfl
      | true =>
        exfalso
        exact hman (List.elem_iff.mp helem)
    have hmem2 := processType_mem_of hk1 hok
    cases dt with
    | dockets => exact Or.inl hmem2
    | documents => exact Or.inr (Or.inl hmem2)
    | comments => exact Or.inr (Or.inr hmem2)

/-- Claim C5 (corrected): a second pipeline run against the same source
store, immediately after a run whose manifest was persisted, yields zero
new rows for every record kind, writes no staging file, runs no merge,
does not re-save the manifest, and leaves the durable manifest unchanged.
(Keys recorded in the manifest are filtered out during listing; keys that
previously failed are re-listed and re-attempted, but fail again
deterministically.) -/
theorem C5_second_run_idempotent (agencies : List (List String))
    (fetch : String → Option JVal) (manifest : List String) :
    (∀ dt, (runOnce agencies fetch
        (runOnce agencies fetch manifest).manifestAfter).rowsOf dt = 0) ∧
    (runOnce agencies fetch
        (runOnce agencies fetch manifest).manifestAfter).newKeys = [] ∧
    (runOnce agencies fetch
        (runOnce agencies fetch manifest).manifestAfter).staged = false ∧
    (runOnce agencies fetch
        (runOnce agencies fetch manifest).manifestAfter).mergeRan = false ∧
    (runOnce agencies fetch
        (runOnce agencies fetch manifest).manifestAfter).saveRan = false ∧
    (runOnce agencies fetch
        (runOnce agencies fetch manifest).manifestAfter).manifestAfter =
      (runOnce agencies fetch manifest).manifestAfter := by
  set after := (runOnce agencies fetch manifest).manifestAfter with hafter
  have hA : ∀ ks ∈ agencies, ∀ dt,
      processType fetch after ks dt = (0, []) := by
    intro ks hks dt
    apply processType_all_bad
    intro k hk
    exact secondRun_keyOk_false hks hk
  have hAR : ∀ ks ∈ agencies, ∀ dt,
      (agencyResult fetch after ks).1 dt = 0 := by
    intro ks hks dt
    cases dt with
    | dockets =>
      show (processType fetch after ks DataType.dockets).1 = 0
      rw [hA ks hks DataType.dockets]
    | documents =>
      show (processType fetch after ks DataType.documents).1 = 0
      rw [hA ks hks DataType.documents]
    | comments =>
      show (processType fetch after ks DataType.comments).1 = 0
      rw [hA ks hks DataType.comments]
  have hAR2 : ∀ ks ∈ agencies, (agencyResult fetch after ks).2 = [] := by
    intro ks hks
    have hdef : (agencyResult fetch after ks).2 =
        (processType fetch after ks DataType.dockets).2 ++
        (processType fetch after ks DataType.documents).2 ++
        (processType fetch after ks DataType.comments).2 := rfl
    rw [hdef, hA ks hks DataType.dockets, hA ks hks DataType.documents,
      hA ks hks DataType.comments]
    rfl
  have hrows : ∀ dt, (runOnce agencies fetch after).rowsOf dt = 0 := by
    intro dt
    have hdef : (runOnce agencies fetch after).rowsOf dt =
        ((agencies.map (agencyResult fetch after)).map
          (fun r => r.1 dt)).sum := rfl
    rw [hdef]
    apply List.sum_eq_zero
    intro x hx
    rw [List.mem_map] at hx
    obtain ⟨r, hr, hrx⟩ := hx
    rw [List.mem_map] at hr
    obtain ⟨ks, hks, hrk⟩ := hr
    rw [← hrx, ← hrk]
    exact hAR ks hks dt
  have hnew : (runOnce agencies fetch after).newKeys = [] := by
    rw [List.eq_nil_iff_forall_not_mem]
    intro k hk
    rw [runOnce_newKeys_mem] at hk
    obtain ⟨ks, hks, hmem⟩ := hk
    rw [hAR2 ks hks] at hmem
    cases hmem
  refine ⟨hrows, hnew, ?_, ?_, ?_, ?_⟩
  · have hdef : (runOnce agencies fetch after).staged =
        (agencies.map (agencyResult fetch after)).any (fun r =>
          !((r.1 DataType.dockets + r.1 DataType.documents +
             r.1 DataType.comments) == 0)) := rfl
    rw [hdef]
    rw [List.any_eq_false]
    intro r hr
    rw [List.mem_map] at hr
    obtain ⟨ks, hks, hrk⟩ := hr
    rw [← hrk]
    rw [hAR ks hks DataType.dockets, hAR ks hks DataType.documents,
      hAR ks hks DataType.comments]
    decide
  · have hdef : (runOnce agencies fetch after).mergeRan =
        !(((runOnce agencies fetch after).rowsOf DataType.dockets +
           (runOnce agencies fetch after).rowsOf DataType.documents +
           (runOnce agencies fetch after).rowsOf DataType.comments) == 0) := rfl
    rw [hdef, hrows DataType.dockets, hrows DataType.documents,
      hrows DataType.comments]
    rfl
  · have hdef : (runOnce agencies fetch after).saveRan =
        !(runOnce agencies fetch after).newKeys.isEmpty := rfl
    rw [hdef, hnew]
    rfl
  · have hdef : (runOnce agencies fetch after).manifestAfter =
        (if (runOnce agencies fetch after).newKeys.isEmpty then after
         else after ++ (runOnce agencies fetch after).newKeys) := rfl
    rw [hdef, hnew]
    rfl

/-- Counterexample to claim C5 as stated: after a completed run in which
the only listed key failed (its extracted id was null), the key is not in
the manifest, so the second run's listing is not empty - the claim's
"every key is filtered out by the manifest during listing" is false.
(The second run still stages nothing and changes nothing.) -/
theorem C5_counterexample :
    (runOnce [[exDocketKey]] exFetchEmpty []).manifestAfter = [] ∧
    listJsonFiles [exDocketKey] DataType.dockets
      ((runOnce [[exDocketKey]] exFetchEmpty []).manifestAfter) =
      [exDocketKey] := by
  exact ⟨rfl, rfl⟩

/-- Claim C2 (corrected): the successful-keys list of the fetch-parse
stage is exactly the listed keys whose download and parse succeeded and
whose extracted row has a truthy first (id) field; the kept records are
the corresponding rows, one per successful key.  (The extract lambdas
never return null; the stage instead drops rows whose id field is null
or empty.) -/
theorem C2_successful_keys (fetch : String → Option JVal) (dt : DataType)
    (keys : List String) :
    (processKeys fetch dt keys).2 = keys.filter (keyOk fetch dt) ∧
    (processKeys fetch dt keys).1 = keys.filterMap (rowPick fetch dt) ∧
    (processKeys fetch dt keys).1.length =
      (processKeys fetch dt keys).2.length :=
  ⟨processKeys_snd fetch dt keys, processKeys_fst fetch dt keys,
   processKeys_length fetch dt keys⟩

/-- Counterexample to claim C2 as stated: a key whose content parses to
the empty JSON object is extracted to a (non-null) row, yet it is not in
the successful-keys list, because the row's id field is null. -/
theorem C2_counterexample :
    (downloadAndParse exFetchEmpty DataType.dockets "k").isSome = true ∧
    (processKeys exFetchEmpty DataType.dockets ["k"]).2 = [] := by
  exact ⟨rfl, rfl⟩

/-- Claim C1 (code bug): on a merged comments dataset holding one row
with posted_date "2023-05-01" and one row with null posted_date, the
optimizer writes only the year=2023 partition containing the dated row.
No year=other partition is written (other_years is empty because nulls
are dropped before the unique-year computation), so the null-date row
appears in no partition, contradicting the claim that every row lands in
exactly one partition. -/
theorem C1_null_date_dropped :
    optimizeComments [exRowDated, exRowNullDate] =
      Except.ok [("2023", [exRowDated])] ∧
    ∀ p ∈ [("2023", [exRowDated])], p.1 ≠ "other" ∧ exRowNullDate ∉ p.2 := by
  refine ⟨rfl, ?_⟩
  intro p hp
  rw [List.mem_singleton] at hp
  subst hp
  refine ⟨by decide, ?_⟩
  intro h
  rw [List.mem_singleton] at h
  exact Option.noConfusion (congrArg CRow.posted_date h)

/-- In a prefix of an append that contains an element only found in the
right part, the whole left part is present. -/
theorem mem_take_of_mem_left {α : Type} {xs ys : List α} {n : Nat}
    {a b : α} (ha : a ∉ xs) (hb : b ∈ xs)
    (h : a ∈ (xs ++ ys).take n) : b ∈ (xs ++ ys).take n := by
  rw [List.take_append_eq_append_take] at h ⊢
  rw [List.mem_append] at h
  cases h with
  | inl hx => exact absurd (List.take_subset n xs hx) ha
  | inr hy =>
    have hne : n - xs.length ≠ 0 := by
      intro hz
      rw [hz] at hy
      cases hy
    have hlen : xs.length ≤ n := by omega
    rw [List.take_of_length_le hlen]
    exact List.mem_append.mpr (Or.inl hb)

/-- If the (agency, type) step reported a successful key, it wrote a
non-zero row count. -/
theorem processType_fst_pos {fetch : String → Option JVal}
    {manifest allKeys : List String} {dt : DataType} {k : String}
    (h : k ∈ (processType fetch manifest allKeys dt).2) :
    (processType fetch manifest allKeys dt).1 ≠ 0 := by
  cases hf : (listJsonFiles allKeys dt manifest).isEmpty with
  | true => simp only [processType, hf] at h; simp at h
  | false =>
    simp only [processType, hf, Bool.false_eq_true, if_false] at h ⊢
    cases hr : (processKeys fetch dt (listJsonFiles allKeys dt manifest)).1.isEmpty with
    | true => rw [hr] at h; simp at h
    | false =>
      simp only [Bool.false_eq_true, if_false]
      intro hlen
      rw [List.length_eq_zero] at hlen
      rw [← List.isEmpty_iff] at hlen
      rw [hlen] at hr
      cases hr

/-- If a run collected any new key, it staged rows, so the merge runs. -/
theorem runOnce_save_imp_merge {agencies : List (List String)}
    {fetch : String → Option JVal} {manifest : List String}
    (h : (runOnce agencies fetch manifest).saveRan = true) :
    (runOnce agencies fetch manifest).mergeRan = true := by
  have hdefs : (runOnce agencies fetch manifest).saveRan =
      !(runOnce agencies fetch manifest).newKeys.isEmpty := rfl
  rw [hdefs, Bool.not_eq_eq_eq_not, Bool.not_true] at h
  have hne : (runOnce agencies fetch manifest).newKeys ≠ [] := by
    intro hz
    rw [hz] at h
    cases h
  obtain ⟨k, hk⟩ := List.exists_mem_of_ne_nil _ hne
  rw [runOnce_newKeys_mem] at hk
  obtain ⟨ks, hks, hmem⟩ := hk
  rw [agencyResult_snd_mem] at hmem
  have hsum : ∀ dt, (processType fetch manifest ks dt).1 ≠ 0 →
      (runOnce agencies fetch manifest).rowsOf dt ≠ 0 := by
    intro dt hpos
    have hdefr : (runOnce agencies fetch manifest).rowsOf dt =
        ((agencies.map (agencyResult fetch manifest)).map
          (fun r => r.1 dt)).sum := rfl
    rw [hdefr]
    have helem : (agencyResult fetch manifest ks).1 dt ∈
        (agencies.map (agencyResult fetch manifest)).map (fun r => r.1 dt) :=
      List.mem_map.mpr ⟨agencyResult fetch manifest ks,
        List.mem_map.mpr ⟨ks, hks, rfl⟩, rfl⟩
    have hle := List.single_le_sum
      (fun (x : Nat) _ => Nat.zero_le x) _ helem
    have hval : (agencyResult fetch manifest ks).1 dt =
        (processType fetch manifest ks dt).1 := by
      cases dt <;> rfl
    omega
  have hdefm : (runOnce agencies fetch manifest).mergeRan =
      !(((runOnce agencies fetch manifest).rowsOf DataType.dockets +
         (runOnce agencies fetch manifest).rowsOf DataType.documents +
         (runOnce agencies fetch manifest).rowsOf DataType.comments) == 0) := rfl
  rw [hdefm]
  have hne2 : (runOnce agencies fetch manifest).rowsOf DataType.dockets +
      (runOnce agencies fetch manifest).rowsOf DataType.documents +
      (runOnce agencies fetch manifest).rowsOf DataType.comments ≠ 0 := by
    cases hmem with
    | inl hm => have := hsum DataType.dockets (processType_fst_pos hm); omega
    | inr hm2 =>
      cases hm2 with
      | inl hm => have := hsum DataType.documents (processType_fst_pos hm); omega
      | inr hm => have := hsum DataType.comments (processType_fst_pos hm); omega
  simp [hne2]

/-- Claim C8: in every pipeline run, save_manifest happens only after the
merge has finished, and the merge runs at most once, only after every
agency task has completed.  Stated on prefixes of the run's event trace:
any prefix containing the save event already contains the merge event,
any prefix containing the merge event already contains every agency
completion, and the trace holds at most one merge event. -/
theorem C8_save_after_merge (agencies : List (List String))
    (fetch : String → Option JVal) (manifest : List String) (n : Nat) :
    (Ev.saveRun ∈ (mainTrace agencies fetch manifest).take n →
      Ev.mergeRun ∈ (mainTrace agencies fetch manifest).take n) ∧
    (Ev.mergeRun ∈ (mainTrace agencies fetch manifest).take n →
      ∀ i, i < agencies.length →
        Ev.agencyDone i ∈ (mainTrace agencies fetch manifest).take n) ∧
    (mainTrace agencies fetch manifest).count Ev.mergeRun ≤ 1 := by
  have hdef : mainTrace agencies fetch manifest =
      (List.range agencies.length).map Ev.agencyDone ++
        ((if (runOnce agencies fetch manifest).mergeRan
            then [Ev.mergeRun] else []) ++
         (if (runOnce agencies fetch manifest).saveRan
            then [Ev.saveRun] else [])) := by
    rw [mainTrace, List.append_assoc]
  have hsnd : Ev.saveRun ∉ (List.range agencies.length).map Ev.agencyDone := by
    intro hmem
    rw [List.mem_map] at hmem
    obtain ⟨i, _, hi⟩ := hmem
    cases hi
  have hmnd : Ev.mergeRun ∉ (List.range agencies.length).map Ev.agencyDone := by
    intro hmem
    rw [List.mem_map] at hmem
    obtain ⟨i, _, hi⟩ := hmem
    cases hi
  refine ⟨?_, ?_, ?_⟩
  · intro h
    have hsin : Ev.saveRun ∈ mainTrace agencies fetch manifest :=
      List.mem_of_mem_take h
    have hsave : (runOnce agencies fetch manifest).saveRan = true := by
      cases hs : (runOnce agencies fetch manifest).saveRan with
      | true => rfl
      | false =>
        exfalso
        rw [hdef, hs] at hsin
        simp only [Bool.false_eq_true, if_false, List.append_nil] at hsin
        rw [List.mem_append] at hsin
        cases hsin with
        | inl hx => exact hsnd hx
        | inr hx =>
          cases hm : (runOnce agencies fetch manifest).mergeRan with
          | true => rw [hm] at hx; simp at hx
          | false => rw [hm] at hx; simp at hx
    have hmerge := runOnce_save_imp_merge hsave
    rw [hdef, hmerge, hsave] at h ⊢
    simp only [if_true] at h ⊢
    rw [show (List.range agencies.length).map Ev.agencyDone ++
        ([Ev.mergeRun] ++ [Ev.saveRun]) =
        ((List.range agencies.length).map Ev.agencyDone ++ [Ev.mergeRun]) ++
          [Ev.saveRun] by rw [List.append_assoc]] at h ⊢
    refine mem_take_of_mem_left ?_ ?_ h
    · intro hmem
      rw [List.mem_append] at hmem
      cases hmem with
      | inl hx => exact hsnd hx
      | inr hx => simp at hx
    · exact List.mem_append.mpr (Or.inr (List.mem_singleton.mpr rfl))
  · intro h i hi
    rw [hdef] at h ⊢
    refine mem_take_of_mem_left hmnd ?_ h
    exact List.mem_map.mpr ⟨i, List.mem_range.mpr hi, rfl⟩
  · rw [hdef]
    rw [List.count_append, List.count_append]
    have h1 : ((List.range agencies.length).map Ev.agencyDone).count
        Ev.mergeRun = 0 := List.count_eq_zero.mpr hmnd
    have h2 : (if (runOnce agencies fetch manifest).mergeRan
        then [Ev.mergeRun] else []).count Ev.mergeRun ≤ 1 := by
      cases (runOnce agencies fetch manifest).mergeRan <;> simp
    have h3 : (if (runOnce agencies fetch manifest).saveRan
        then [Ev.saveRun] else []).count Ev.mergeRun = 0 := by
      cases (runOnce agencies fetch manifest).saveRan <;> simp
    omega

/-- Witness for C8 at a one-agency store with one successful comment key:
the trace is [agencyDone 0, mergeRun, saveRun], the save event is in the
3-prefix, and the theorem places the merge event in that prefix. -/
theorem C8_save_after_merge_witness :
    Ev.saveRun ∈ (mainTrace [[exCommentKey]] exFetchGood []).take 3 ∧
    Ev.mergeRun ∈ (mainTrace [[exCommentKey]] exFetchGood []).take 3 := by
  refine ⟨by decide, ?_⟩
  exact (C8_save_after_merge [[exCommentKey]] exFetchGood [] 3).1 (by decide)

/-- Counterexample to claim C9 as stated: with two agencies, the first
raising on listing and the second having one good comment key, the run
aborts with the listing exception and the merge never runs - even though
the same store with only the second agency merges fine.  The failure thus
propagates at run granularity, not agency granularity. -/
theorem C9_counterexample :
    (mainRunF [Except.error (), Except.ok [exCommentKey]]
        exFetchGood []).outcome = Except.error () ∧
    (mainRunF [Except.error (), Except.ok [exCommentKey]]
        exFetchGood []).mergeRan = false ∧
    (mainRunF [Except.ok [exCommentKey]] exFetchGood []).mergeRan = true := by
  exact ⟨rfl, rfl, rfl⟩

/-- Claim C9 (corrected): per-object fetch/parse failures are isolated -
a key whose download or parse fails contributes nothing and leaves the
other keys' results unchanged - and one agency's failure does not change
the staging work of the others; but an agency-level exception (e.g. a
hard listing failure) is not contained at the agency boundary: the run's
aggregation loop re-raises it, the run ends with the error, and neither
merge nor manifest save happens.  Listing failures are never reported as
an empty listing. -/
theorem C9_failure_aborts_run (pre post : List (Except Unit (List String)))
    (fetch : String → Option JVal) (manifest : List String) :
    (mainRunF (pre ++ Except.error () :: post) fetch manifest).stagedResults =
      (mainRunF (pre ++ post) fetch manifest).stagedResults ∧
    (mainRunF (pre ++ Except.error () :: post) fetch manifest).mergeRan =
      false ∧
    (mainRunF (pre ++ Except.error () :: post) fetch manifest).saveRan =
      false ∧
    (mainRunF (pre ++ Except.error () :: post) fetch manifest).outcome =
      Except.error () ∧
    (∀ (dt : DataType) (k : String) (ks1 ks2 : List String),
      downloadAndParse fetch dt k = none →
      processKeys fetch dt (ks1 ++ k :: ks2) =
        processKeys fetch dt (ks1 ++ ks2)) := by
  have hfail : (pre ++ Except.error () :: post).any isErrB = true := by
    simp [List.any_append, isErrB]
  refine ⟨?_, ?_, ?_, ?_, ?_⟩
  · have hdef1 : (mainRunF (pre ++ Except.error () :: post) fetch
        manifest).stagedResults =
        ((pre ++ Except.error () :: post).filterMap (fun a =>
          match a with
          | Except.ok ks => some ks
          | Except.error _ => none)).map (agencyResult fetch manifest) := rfl
    have hdef2 : (mainRunF (pre ++ post) fetch manifest).stagedResults =
        ((pre ++ post).filterMap (fun a =>
          match a with
          | Except.ok ks => some ks
          | Except.error _ => none)).map (agencyResult fetch manifest) := rfl
    rw [hdef1, hdef2]
    rw [List.filterMap_append, List.filterMap_append, List.filterMap_cons]
  · have hdef : (mainRunF (pre ++ Except.error () :: post) fetch
        manifest).mergeRan =
        (!(pre ++ Except.error () :: post).any isErrB &&
          (runOnce ((pre ++ Except.error () :: post).filterMap (fun a =>
            match a with
            | Except.ok ks => some ks
            | Except.error _ => none)) fetch manifest).mergeRan) := rfl
    rw [hdef, hfail]
    rfl
  · have hdef : (mainRunF (pre ++ Except.error () :: post) fetch
        manifest).saveRan =
        (!(pre ++ Except.error () :: post).any isErrB &&
          (runOnce ((pre ++ Except.error () :: post).filterMap (fun a =>
            match a with
            | Except.ok ks => some ks
            | Except.error _ => none)) fetch manifest).saveRan) := rfl
    rw [hdef, hfail]
    rfl
  · have hdef : (mainRunF (pre ++ Except.error () :: post) fetch
        manifest).outcome =
        (if (pre ++ Except.error () :: post).any isErrB
         then Except.error () else Except.ok ()) := rfl
    rw [hdef, hfail]
    rfl
  · intro dt k ks1 ks2 hnone
    induction ks1 with
    | nil => simp [processKeys, hnone]
    | cons a as ih =>
      simp only [List.cons_append, processKeys, List.append_eq, ih]

/-- Witness for C9 (corrected) at a concrete failing key: fetch fails on
"bad", and dropping that key from the input leaves the stage's result
unchanged, via the theorem's isolation conjunct. -/
theorem C9_failure_aborts_run_witness :
    downloadAndParse exFetchBad DataType.comments "bad" = none ∧
    processKeys exFetchBad DataType.comments ("bad" :: []) =
      processKeys exFetchBad DataType.comments [] :=
  ⟨rfl,
   (C9_failure_aborts_run [] [Except.ok [exCommentKey]]
      exFetchBad []).2.2.2.2 DataType.comments "bad" [] [] rfl⟩

/-! ## Lemmas about the streaming merge tables -/

/-- Lookup skips a prefix none of whose keys is the sought key. -/
theorem lookup_append_of_fst_nomem {β : Type} {l1 l2 : List (String × β)}
    {key : String} (h : key ∉ l1.map Prod.fst) :
    (l1 ++ l2).lookup key = l2.lookup key := by
  induction l1 with
  | nil => rfl
  | cons p ps ih =>
    simp only [List.map_cons, List.mem_cons] at h
    push_neg at h
    obtain ⟨h1, h2⟩ := h
    simp only [List.cons_append, List.lookup]
    rw [show (key == p.1) = false from beq_eq_false_iff_ne.mpr h1]
    exact ih h2

/-- Claim C6: merging a staging table whose column set is a strict subset
of the target schema yields, for that table's rows, rows carrying the
full target column list in declared order, with an explicit null in the
absent column, and those rows appear in the merged output whose column
list is exactly the target. -/
theorem C6_schema_evolution (a b c : String) (hab : a ≠ b) (hca : c ≠ a)
    (hcb : c ≠ b) (t : PTable) (hcols : t.cols = [a, b])
    (hwf : ∀ r ∈ t.rows, r.map Prod.fst = [a, b]) (ts : List PTable) :
    (mergeTables [a, b, c] (ts ++ [t])).cols = [a, b, c] ∧
    ∀ r ∈ (processFile [a, b, c] t).rows,
      r.map Prod.fst = [a, b, c] ∧ r.lookup c = some none ∧
      r ∈ (mergeTables [a, b, c] (ts ++ [t])).rows := by
  have haddm : addMissing [a, b, c] t =
      { cols := t.cols ++ [c]
        rows := t.rows.map (fun r => r ++ [(c, (none : Option String))]) } := by
    have h1 : t.cols.contains a = true := by rw [hcols]; simp
    have h2 : t.cols.contains b = true := by rw [hcols]; simp
    have h3 : t.cols.contains c = false := by
      rw [hcols]
      simp [hca, hcb]
    unfold addMissing
    simp only [List.foldl_cons, List.foldl_nil, h1, h2, h3, if_true,
      Bool.false_eq_true, if_false]
    rfl
  have hrows : (processFile [a, b, c] t).rows =
      t.rows.map (fun r0 =>
        [a, b, c].map (fun col =>
          (col, ((r0 ++ [(c, (none : Option String))]).lookup col).join))) := by
    rw [processFile, haddm]
    simp only [selectCols, List.map_map]
    rfl
  refine ⟨rfl, ?_⟩
  intro r hr
  have hrOrig := hr
  rw [hrows] at hr
  obtain ⟨r0, hr0, hrsel⟩ := List.mem_map.mp hr
  have hkeys0 := hwf r0 hr0
  have hcnot : c ∉ r0.map Prod.fst := by
    rw [hkeys0]
    simp [hca, hcb]
  have hlook : (r0 ++ [(c, (none : Option String))]).lookup c = some none := by
    rw [lookup_append_of_fst_nomem hcnot]
    simp [List.lookup]
  refine ⟨?_, ?_, ?_⟩
  · rw [← hrsel]
    simp
  · rw [← hrsel]
    simp only [List.map_cons, List.map_nil, List.lookup]
    rw [show (c == a) = false from beq_eq_false_iff_ne.mpr hca]
    rw [show (c == b) = false from beq_eq_false_iff_ne.mpr hcb]
    rw [show (c == c) = true from beq_self_eq_true c]
    rw [hlook]
    rfl
  · apply List.mem_flatten.mpr
    refine ⟨(processFile [a, b, c] t).rows, ?_, hrOrig⟩
    apply List.mem_map.mpr
    exact ⟨t, List.mem_append.mpr (Or.inr (List.mem_singleton.mpr rfl)), rfl⟩

/-- Witness for C6 at a concrete two-column table merged into a
three-column target. -/
theorem C6_schema_evolution_witness :
    ("z" : String) ≠ "x" ∧
    ∀ r ∈ (processFile ["x", "y", "z"] exTable).rows,
      r.map Prod.fst = ["x", "y", "z"] ∧ r.lookup "z" = some none ∧
      r ∈ (mergeTables ["x", "y", "z"] ([] ++ [exTable])).rows := by
  refine ⟨by decide, ?_⟩
  exact (C6_schema_evolution "x" "y" "z" (by decide) (by decide) (by decide)
    exTable rfl
    (by
      intro r hr
      rw [show exTable.rows =
        [[("x", some "1"), ("y", (none : Option String))]] from rfl,
        List.mem_singleton] at hr
      subst hr
      rfl) []).2

/-! ## Lemmas about the merge's file-system trace -/

/-- An operation that does not touch a path leaves its state unchanged. -/
theorem applyOp_untouched (fs : String → Option FVal) (op : FsOp)
    (q : String) (h : touchesQ op q = false) :
    applyOp fs op q = fs q := by
  cases op with
  | readF p => rfl
  | beginW p =>
    simp only [touchesQ] at h
    simp only [applyOp]
    rw [show (q == p) = false from
      beq_eq_false_iff_ne.mpr (Ne.symm (beq_eq_false_iff_ne.mp h))]
    simp
  | endW p =>
    simp only [touchesQ] at h
    simp only [applyOp]
    rw [show (q == p) = false from
      beq_eq_false_iff_ne.mpr (Ne.symm (beq_eq_false_iff_ne.mp h))]
    simp
  | unlinkF p =>
    simp only [touchesQ] at h
    simp only [applyOp]
    rw [show (q == p) = false from
      beq_eq_false_iff_ne.mpr (Ne.symm (beq_eq_false_iff_ne.mp h))]
    simp
  | renameF s d =>
    simp only [touchesQ, Bool.or_eq_false_iff] at h
    simp only [applyOp]
    rw [show (q == d) = false from
      beq_eq_false_iff_ne.mpr (Ne.symm (beq_eq_false_iff_ne.mp h.2))]
    rw [show (q == s) = false from
      beq_eq_false_iff_ne.mpr (Ne.symm (beq_eq_false_iff_ne.mp h.1))]
    simp
  | moveF s d =>
    simp only [touchesQ, Bool.or_eq_false_iff] at h
    simp only [applyOp]
    rw [show (q == d) = false from
      beq_eq_false_iff_ne.mpr (Ne.symm (beq_eq_false_iff_ne.mp h.2))]
    rw [show (q == s) = false from
      beq_eq_false_iff_ne.mpr (Ne.symm (beq_eq_false_iff_ne.mp h.1))]
    simp

/-- A sequence of operations none of which touches a path leaves its
state unchanged. -/
theorem applyOps_untouched (ops : List FsOp) (q : String) :
    ∀ (fs : String → Option FVal),
      (∀ op ∈ ops, touchesQ op q = false) → applyOps ops fs q = fs q := by
  induction ops with
  | nil => intro fs _; rfl
  | cons op ops ih =>
    intro fs h
    have hstep : applyOps (op :: ops) fs = applyOps ops (applyOp fs op) := rfl
    rw [hstep]
    rw [ih (applyOp fs op) (fun o ho => h o (List.mem_cons_of_mem op ho))]
    exact applyOp_untouched fs op q (h op (List.mem_cons_self op ops))

/-- A prefix that misses a designated middle element stays inside the
left part. -/
theorem take_eq_of_not_mem_mid {α : Type} {xs ys : List α} {m : α}
    {n : Nat} (h : m ∉ (xs ++ m :: ys).take n) :
    (xs ++ m :: ys).take n = xs.take n := by
  rw [List.take_append_eq_append_take] at h ⊢
  cases le_or_lt n xs.length with
  | inl hle =>
    rw [Nat.sub_eq_zero_of_le hle]
    simp
  | inr hlt =>
    exfalso
    apply h
    apply List.mem_append.mpr
    right
    have hnz : n - xs.length ≠ 0 := by omega
    cases hz : n - xs.length with
    | zero => exact absurd hz hnz
    | succ k =>
      rw [List.take_succ_cons]
      exact List.mem_cons_self m (ys.take k)

/-- Any operation emitted by the per-kind merge touches only that kind's
output path, its temp path, or one of its staging files. -/
theorem mergeOpsKind_scope (fsx : String → Option FVal) (d : DataType)
    (s : List String) (op : FsOp) (q : String)
    (hop : op ∈ mergeOpsKind fsx d s) (ht : touchesQ op q = true) :
    q = outP d ∨ q = tmpP d ∨ q ∈ s := by
  cases s with
  | nil => cases hop
  | cons s0 srest =>
    simp only [mergeOpsKind] at hop
    by_cases hbr : (((if (fsx (outP d)).isSome then [outP d] else []) ++
        s0 :: srest).length == 1 && !(fsx (outP d)).isSome) = true
    · rw [if_pos hbr] at hop
      rw [List.mem_singleton] at hop
      subst hop
      simp only [touchesQ, Bool.or_eq_true] at ht
      cases ht with
      | inl h => right; right; rw [← eq_of_beq h]; exact List.mem_cons_self s0 srest
      | inr h => left; exact (eq_of_beq h).symm
    · rw [if_neg hbr] at hop
      rw [List.mem_cons] at hop
      cases hop with
      | inl h =>
        subst h
        simp only [touchesQ] at ht
        right; left
        exact (eq_of_beq ht).symm
      | inr h =>
        rw [List.mem_append] at h
        cases h with
        | inl hmap =>
          rw [List.mem_map] at hmap
          obtain ⟨p, _, hp⟩ := hmap
          rw [← hp] at ht
          cases ht
        | inr hrest =>
          rw [List.mem_cons] at hrest
          cases hrest with
          | inl h =>
            subst h
            simp only [touchesQ] at ht
            right; left
            exact (eq_of_beq ht).symm
          | inr h =>
            rw [List.mem_append] at h
            cases h with
            | inl hite =>
              cases hx : (fsx (outP d)).isSome with
              | true =>
                rw [hx] at hite
                simp only [if_true] at hite
                rw [List.mem_singleton] at hite
                subst hite
                simp only [touchesQ] at ht
                left
                exact (eq_of_beq ht).symm
              | false =>
                rw [hx] at hite
                simp at hite
            | inr hren =>
              rw [List.mem_singleton] at hren
              subst hren
              simp only [touchesQ, Bool.or_eq_true] at ht
              cases ht with
              | inl h => right; left; exact (eq_of_beq h).symm
              | inr h => left; exact (eq_of_beq h).symm

/-- Output paths of different kinds differ. -/
theorem outP_inj_ne {d1 d2 : DataType} (h : d1 ≠ d2) :
    outP d1 ≠ outP d2 := by
  cases d1 <;> cases d2 <;> first | (exact absurd rfl h) | decide

/-- No output path equals any temp path. -/
theorem outP_ne_tmpP (d1 d2 : DataType) : outP d1 ≠ tmpP d2 := by
  cases d1 <;> cases d2 <;> decide

/-- Temp paths of different kinds differ. -/
theorem tmpP_inj_ne {d1 d2 : DataType} (h : d1 ≠ d2) :
    tmpP d1 ≠ tmpP d2 := by
  cases d1 <;> cases d2 <;> first | (exact absurd rfl h) | decide

/-- Claim C7: during a streaming merge for a record kind, the existing
output file is neither modified nor deleted at any point of the
operation trace before the temporary merged file is fully written: every
prefix of the trace that does not contain the temp-file completion event
leaves the output path's content at its original value and contains
neither the unlink of the old output nor the rename of the temp file. -/
theorem C7_old_output_intact (dt : DataType) (staging : List String)
    (fs : String → Option FVal) (v : FVal)
    (hex : fs (outP dt) = some v) (n : Nat)
    (hn : FsOp.endW (tmpP dt) ∉ (mergeOpsKind fs dt staging).take n) :
    applyOps ((mergeOpsKind fs dt staging).take n) fs (outP dt) = some v ∧
    FsOp.unlinkF (outP dt) ∉ (mergeOpsKind fs dt staging).take n ∧
    FsOp.renameF (tmpP dt) (outP dt) ∉ (mergeOpsKind fs dt staging).take n := by
  cases staging with
  | nil =>
    refine ⟨?_, ?_, ?_⟩
    · rw [show mergeOpsKind fs dt [] = [] from rfl]
      rw [List.take_nil]
      exact hex
    · rw [show mergeOpsKind fs dt [] = [] from rfl, List.take_nil]
      exact List.not_mem_nil _
    · rw [show mergeOpsKind fs dt [] = [] from rfl, List.take_nil]
      exact List.not_mem_nil _
  | cons s0 srest =>
    have hexb : (fs (outP dt)).isSome = true := by rw [hex]; rfl
    have hops : mergeOpsKind fs dt (s0 :: srest) =
        (FsOp.beginW (tmpP dt) ::
          ((outP dt :: s0 :: srest).map FsOp.readF)) ++
        (FsOp.endW (tmpP dt) ::
          (FsOp.unlinkF (outP dt) ::
            [FsOp.renameF (tmpP dt) (outP dt)])) := by
      simp only [mergeOpsKind, hexb, if_true]
      rfl
    rw [hops] at hn ⊢
    rw [take_eq_of_not_mem_mid hn]
    have hxs : ∀ op ∈ (FsOp.beginW (tmpP dt) ::
        ((outP dt :: s0 :: srest).map FsOp.readF)).take n,
        touchesQ op (outP dt) = false ∧
        op ≠ FsOp.unlinkF (outP dt) ∧
        op ≠ FsOp.renameF (tmpP dt) (outP dt) := by
      intro op hop
      have hop2 := List.take_subset n _ hop
      rw [List.mem_cons] at hop2
      cases hop2 with
      | inl h =>
        subst h
        refine ⟨?_, ?_, ?_⟩
        · simp only [touchesQ]
          exact beq_eq_false_iff_ne.mpr (Ne.symm (outP_ne_tmpP dt dt))
        · intro hx; cases hx
        · intro hx; cases hx
      | inr h =>
        rw [List.mem_map] at h
        obtain ⟨p, _, hp⟩ := h
        subst hp
        refine ⟨rfl, ?_, ?_⟩
        · intro hx; cases hx
        · intro hx; cases hx
    refine ⟨?_, ?_, ?_⟩
    · rw [applyOps_untouched _ _ fs (fun op hop => (hxs op hop).1)]
      exact hex
    · intro hmem
      exact (hxs _ hmem).2.1 rfl
    · intro hmem
      exact (hxs _ hmem).2.2 rfl

/-- Witness for C7 at a concrete state: dockets output exists, one
staging file, and the 2-element prefix (open temp, read old output) of
the trace leaves the old output intact and contains no unlink or
rename. -/
theorem C7_old_output_intact_witness :
    (fun p => if p == "dockets.parquet" then some (FVal.done 7)
              else none) (outP DataType.dockets) = some (FVal.done 7) ∧
    FsOp.endW (tmpP DataType.dockets) ∉
      (mergeOpsKind
        (fun p => if p == "dockets.parquet" then some (FVal.done 7)
                  else none)
        DataType.dockets ["staging/dockets/EPA.parquet"]).take 2 ∧
    applyOps
      ((mergeOpsKind
        (fun p => if p == "dockets.parquet" then some (FVal.done 7)
                  else none)
        DataType.dockets ["staging/dockets/EPA.parquet"]).take 2)
      (fun p => if p == "dockets.parquet" then some (FVal.done 7)
                else none) (outP DataType.dockets) = some (FVal.done 7) := by
  refine ⟨rfl, by decide, ?_⟩
  exact (C7_old_output_intact DataType.dockets ["staging/dockets/EPA.parquet"]
    (fun p => if p == "dockets.parquet" then some (FVal.done 7) else none)
    (FVal.done 7) rfl 2 (by decide)).1

/-- Claim C10: when a record kind's staging directory is missing or holds
no parquet files (empty staging list), the merge emits no operation for
that kind, and the full three-kind merge - whatever it does for the other
kinds - never touches that kind's output or temp path and leaves the
output file's state unchanged. -/
theorem C10_empty_staging_frame (stg : DataType → List String)
    (fs : String → Option FVal) (dt : DataType)
    (h0 : stg dt = [])
    (h1 : (stg DataType.dockets).all
      (fun s => !(s == outP dt) && !(s == tmpP dt)) = true)
    (h2 : (stg DataType.documents).all
      (fun s => !(s == outP dt) && !(s == tmpP dt)) = true)
    (h3 : (stg DataType.comments).all
      (fun s => !(s == outP dt) && !(s == tmpP dt)) = true) :
    mergeOpsKind fs dt (stg dt) = [] ∧
    (∀ op ∈ mergeAllOps stg fs, touchesQ op (outP dt) = false ∧
      touchesQ op (tmpP dt) = false) ∧
    applyOps (mergeAllOps stg fs) fs (outP dt) = fs (outP dt) ∧
    applyOps (mergeAllOps stg fs) fs (tmpP dt) = fs (tmpP dt) := by
  have hempty : mergeOpsKind fs dt (stg dt) = [] := by rw [h0]; rfl
  have hall : ∀ d : DataType,
      (stg d).all (fun s => !(s == outP dt) && !(s == tmpP dt)) = true := by
    intro d
    cases d with
    | dockets => exact h1
    | documents => exact h2
    | comments => exact h3
  have hkind : ∀ (fsx : String → Option FVal) (d : DataType) (op : FsOp),
      op ∈ mergeOpsKind fsx d (stg d) →
      touchesQ op (outP dt) = false ∧ touchesQ op (tmpP dt) = false := by
    intro fsx d op hop
    by_cases hd : d = dt
    · subst hd
      rw [h0] at hop
      cases hop
    · constructor
      · cases htv : touchesQ op (outP dt) with
        | false => rfl
        | true =>
          exfalso
          rcases mergeOpsKind_scope fsx d (stg d) op (outP dt) hop htv with
            hq | hq | hq
          · exact outP_inj_ne (fun he => hd he.symm) hq
          · exact outP_ne_tmpP dt d hq
          · have := List.all_eq_true.mp (hall d) _ hq
            rw [Bool.and_eq_true] at this
            have hx := this.1
            rw [Bool.not_eq_eq_eq_not, Bool.not_true] at hx
            exact beq_eq_false_iff_ne.mp hx rfl
      · cases htv : touchesQ op (tmpP dt) with
        | false => rfl
        | true =>
          exfalso
          rcases mergeOpsKind_scope fsx d (stg d) op (tmpP dt) hop htv with
            hq | hq | hq
          · exact outP_ne_tmpP d dt hq.symm
          · exact tmpP_inj_ne (fun he => hd he.symm) hq
          · have := List.all_eq_true.mp (hall d) _ hq
            rw [Bool.and_eq_true] at this
            have hx := this.2
            rw [Bool.not_eq_eq_eq_not, Bool.not_true] at hx
            exact beq_eq_false_iff_ne.mp hx rfl
  have htouch : ∀ op ∈ mergeAllOps stg fs,
      touchesQ op (outP dt) = false ∧ touchesQ op (tmpP dt) = false := by
    intro op hop
    have hsplit : mergeAllOps stg fs =
        mergeOpsKind fs DataType.dockets (stg DataType.dockets) ++
        (mergeOpsKind
          (applyOps (mergeOpsKind fs DataType.dockets (stg DataType.dockets)) fs)
          DataType.documents (stg DataType.documents) ++
         mergeOpsKind
          (applyOps (mergeOpsKind
            (applyOps (mergeOpsKind fs DataType.dockets (stg DataType.dockets)) fs)
            DataType.documents (stg DataType.documents))
            (applyOps (mergeOpsKind fs DataType.dockets (stg DataType.dockets)) fs))
          DataType.comments (stg DataType.comments)) := by
      rw [mergeAllOps, List.append_assoc]
    rw [hsplit] at hop
    rw [List.mem_append] at hop
    cases hop with
    | inl h => exact hkind _ DataType.dockets op h
    | inr h =>
      rw [List.mem_append] at h
      cases h with
      | inl h => exact hkind _ DataType.documents op h
      | inr h => exact hkind _ DataType.comments op h
  refine ⟨hempty, htouch, ?_, ?_⟩
  · exact applyOps_untouched _ _ fs (fun op hop => (htouch op hop).1)
  · exact applyOps_untouched _ _ fs (fun op hop => (htouch op hop).2)

/-- Witness for C10: dockets has no staging files while the other two
kinds each have one; the merge leaves the dockets output state
unchanged. -/
theorem C10_empty_staging_frame_witness :
    (fun d => match d with
      | DataType.dockets => ([] : List String)
      | DataType.documents => ["staging/documents/EPA.parquet"]
      | DataType.comments => ["staging/comments/EPA.parquet"]) DataType.dockets
      = [] ∧
    applyOps
      (mergeAllOps
        (fun d => match d with
          | DataType.dockets => ([] : List String)
          | DataType.documents => ["staging/documents/EPA.parquet"]
          | DataType.comments => ["staging/comments/EPA.parquet"])
        (fun p => if p == "dockets.parquet" then some (FVal.done 1)
                  else if p == "documents.parquet" then some (FVal.done 2)
                  else none))
      (fun p => if p == "dockets.parquet" then some (FVal.done 1)
                else if p == "documents.parquet" then some (FVal.done 2)
                else none)
      (outP DataType.dockets) =
    (fun p => if p == "dockets.parquet" then some (FVal.done 1)
              else if p == "documents.parquet" then some (FVal.done 2)
              else none) (outP DataType.dockets) := by
  refine ⟨rfl, ?_⟩
  exact (C10_empty_staging_frame
    (fun d => match d with
      | DataType.dockets => ([] : List String)
      | DataType.documents => ["staging/documents/EPA.parquet"]
      | DataType.comments => ["staging/comments/EPA.parquet"])
    (fun p => if p == "dockets.parquet" then some (FVal.done 1)
              else if p == "documents.parquet" then some (FVal.done 2)
              else none)
    DataType.dockets rfl (by decide) (by decide) (by decide)).2.2.1

/-! ## The extract lambdas on malformed and title-less input -/

/-- Counterexample to claim C4 as stated: on the record with data = null
("nulls where objects are expected"), every extract lambda raises
(None.get raises AttributeError) rather than returning a row or null.
The raise is only converted to null upstream, by download_and_parse's
catch-all. -/
theorem C4_counterexample :
    extractDockets exDataNull = Except.error () ∧
    extractDocuments exDataNull = Except.error () ∧
    extractComments exDataNull = Except.error () := by
  exact ⟨rfl, rfl, rfl⟩

/-- Bind on a successful Except reduces to the continuation. -/
theorem except_bind_ok {ε α β : Type} (a : α) (f : α → Except ε β) :
    (bind (Except.ok a) f : Except ε β) = f a := rfl

/-- Map over a successful Except applies the function. -/
theorem except_map_ok {ε α β : Type} (a : α) (f : α → β) :
    (f <$> (Except.ok a : Except ε α) : Except ε β) = Except.ok (f a) := rfl

/-- Claim C4 (corrected): each extract lambda returns a flat row without
raising for every parsed document in which the traversed levels are
navigable - the document is a dict, the defaulted data member is a dict,
and the defaulted attributes member is a dict (for documents, the
fileFormats value must additionally be falsy or a non-empty list headed
by a dict).  Outside these conditions extract may raise, and
download_and_parse catches the raise and returns null for the key. -/
theorem C4_extract_total (d : JVal) (h : navBase d = true) :
    (∃ r, extractDockets d = Except.ok r) ∧
    (∃ r, extractComments d = Except.ok r) ∧
    (ffOkB d = true → ∃ r, extractDocuments d = Except.ok r) := by
  cases d with
  | null => simp [navBase] at h
  | bool b => simp [navBase] at h
  | num n => simp [navBase] at h
  | str s => simp [navBase] at h
  | arr xs => simp [navBase] at h
  | obj kvs =>
    rcases hdv : (kvs.lookup "data").getD (JVal.obj []) with
      _ | _ | _ | _ | _ | dkvs
    case null => simp [navBase, hdv] at h
    case bool => simp [navBase, hdv] at h
    case num => simp [navBase, hdv] at h
    case str => simp [navBase, hdv] at h
    case arr => simp [navBase, hdv] at h
    case obj =>
    rcases hav : (dkvs.lookup "attributes").getD (JVal.obj []) with
      _ | _ | _ | _ | _ | akvs
    case null => simp [navBase, hdv, hav] at h
    case bool => simp [navBase, hdv, hav] at h
    case num => simp [navBase, hdv, hav] at h
    case str => simp [navBase, hdv, hav] at h
    case arr => simp [navBase, hdv, hav] at h
    case obj =>
    refine ⟨?_, ?_, ?_⟩
    · simp [extractDockets, pyGet, hdv, hav, except_bind_ok, except_map_ok]
    · simp [extractComments, pyGet, hdv, hav, except_bind_ok, except_map_ok]
    · intro hff
      simp only [ffOkB, attrsOf, hdv, hav] at hff
      cases htf : jsonTruthy ((akvs.lookup "fileFormats").getD JVal.null) with
      | false =>
        simp [extractDocuments, pyGet, pyIndex0, hdv, hav, htf,
          except_bind_ok, except_map_ok]
      | true =>
        rw [htf] at hff
        simp only [if_true] at hff
        rcases hfv : (akvs.lookup "fileFormats").getD JVal.null with
          _ | _ | _ | _ | xs | _
        case null => rw [hfv] at htf; cases htf
        case bool => rw [hfv] at hff; simp at hff
        case num => rw [hfv] at hff; simp at hff
        case str => rw [hfv] at hff; simp at hff
        case obj => rw [hfv] at hff; simp at hff
        case arr =>
          cases xs with
          | nil => rw [hfv] at htf; simp [jsonTruthy] at htf
          | cons x xs =>
            cases x with
            | obj ykvs =>
              simp [extractDocuments, pyGet, pyIndex0, jsonTruthy, hdv, hav,
                htf, hfv, except_bind_ok, except_map_ok]
            | null => rw [hfv] at hff; simp at hff
            | bool b => rw [hfv] at hff; simp at hff
            | num n => rw [hfv] at hff; simp at hff
            | str st => rw [hfv] at hff; simp at hff
            | arr ys => rw [hfv] at hff; simp at hff

/-- Witness for C4 (corrected) at the empty JSON object: navigable, with
falsy fileFormats, and all three extract lambdas return rows. -/
theorem C4_extract_total_witness :
    navBase exEmptyObj = true ∧ ffOkB exEmptyObj = true ∧
    (∃ r, extractDockets exEmptyObj = Except.ok r) ∧
    (∃ r, extractComments exEmptyObj = Except.ok r) ∧
    (∃ r, extractDocuments exEmptyObj = Except.ok r) := by
  refine ⟨rfl, rfl, ?_, ?_, ?_⟩
  · exact (C4_extract_total exEmptyObj rfl).1
  · exact (C4_extract_total exEmptyObj rfl).2.1
  · exact (C4_extract_total exEmptyObj rfl).2.2 rfl

/-- Counterexample to claim C3 as stated: a record with a present, truthy
id but attributes = null has no data.attributes.title field, yet
extraction raises (the null is returned by .get and the next .get raises)
instead of producing a title-null row, and the key is not counted
successful. -/
theorem C3_counterexample :
    extractComments exAttrsNull = Except.error () ∧
    (processKeys (fun _ => some exAttrsNull)
      DataType.comments ["k"]).2 = [] := by
  exact ⟨rfl, rfl⟩

/-- Claim C3 (corrected): for any JSON record that is a dict whose data
member is a dict carrying a truthy id, and whose attributes member is
either absent or a dict lacking a title key, extraction returns a row
whose title value is null without raising, and the record's key is
counted in the successful-keys subset. -/
theorem C3_missing_title (k : String) (kvs dkvs : List (String × JVal))
    (idv : JVal)
    (hdata : kvs.lookup "data" = some (JVal.obj dkvs))
    (hid : dkvs.lookup "id" = some idv)
    (htruthy : jsonTruthy idv = true)
    (hattr : dkvs.lookup "attributes" = none ∨
      ∃ akvs, dkvs.lookup "attributes" = some (JVal.obj akvs) ∧
        akvs.lookup "title" = none) :
    ∃ row, extractComments (JVal.obj kvs) = Except.ok row ∧
      row.lookup "title" = some JVal.null ∧
      (processKeys (fun _ => some (JVal.obj kvs))
        DataType.comments [k]).2 = [k] := by
  have hfin : ∀ akvs : List (String × JVal),
      (dkvs.lookup "attributes").getD (JVal.obj []) = JVal.obj akvs →
      akvs.lookup "title" = none →
      ∃ row, extractComments (JVal.obj kvs) = Except.ok row ∧
        row.lookup "title" = some JVal.null ∧
        (processKeys (fun _ => some (JVal.obj kvs))
          DataType.comments [k]).2 = [k] := by
    intro akvs hak htitle
    have hok : extractComments (JVal.obj kvs) = Except.ok
        [("comment_id", idv),
         ("docket_id", (akvs.lookup "docketId").getD JVal.null),
         ("agency_code", (akvs.lookup "agencyId").getD JVal.null),
         ("title", JVal.null),
         ("comment", (akvs.lookup "comment").getD JVal.null),
         ("document_type", (akvs.lookup "documentType").getD JVal.null),
         ("posted_date", (akvs.lookup "postedDate").getD JVal.null),
         ("modify_date", (akvs.lookup "modifyDate").getD JVal.null),
         ("receive_date", (akvs.lookup "receiveDate").getD JVal.null)] := by
      simp [extractComments, pyGet, hdata, hak, hid, htitle,
        except_bind_ok, except_map_ok]
    refine ⟨_, hok, ?_, ?_⟩
    · simp [List.lookup]
    · have hdap : downloadAndParse (fun _ => some (JVal.obj kvs))
          DataType.comments k = some
          [("comment_id", idv),
           ("docket_id", (akvs.lookup "docketId").getD JVal.null),
           ("agency_code", (akvs.lookup "agencyId").getD JVal.null),
           ("title", JVal.null),
           ("comment", (akvs.lookup "comment").getD JVal.null),
           ("document_type", (akvs.lookup "documentType").getD JVal.null),
           ("posted_date", (akvs.lookup "postedDate").getD JVal.null),
           ("modify_date", (akvs.lookup "modifyDate").getD JVal.null),
           ("receive_date", (akvs.lookup "receiveDate").getD JVal.null)] := by
        simp [downloadAndParse, extractFor, hok, Except.toOption]
      simp [processKeys, hdap, rowKept, htruthy]
  cases hattr with
  | inl hnone =>
    apply hfin []
    · rw [hnone]
      rfl
    · rfl
  | inr hsome =>
    obtain ⟨akvs, hak, htitle⟩ := hsome
    apply hfin akvs
    · rw [hak]
      rfl
    · exact htitle

/-- Witness for C3 (corrected) at a concrete comment record whose data
has only a truthy id (attributes absent). -/
theorem C3_missing_title_witness :
    ∃ row,
      extractComments (JVal.obj [("data", JVal.obj [("id", JVal.str "C-7")])]) =
        Except.ok row ∧
      row.lookup "title" = some JVal.null ∧
      (processKeys
        (fun _ => some (JVal.obj [("data", JVal.obj [("id", JVal.str "C-7")])]))
        DataType.comments ["k1"]).2 = ["k1"] :=
  C3_missing_title "k1" [("data", JVal.obj [("id", JVal.str "C-7")])]
    [("id", JVal.str "C-7")] (JVal.str "C-7") rfl rfl rfl (Or.inl rfl)
